import Mathlib

/-!
Shallow embedding of the criterion result aggregation and reporting pipeline
of src/code/scripts/process_and_plot.py and src/code/scripts/draw_barplot.py.

Python dicts are modelled as association lists that preserve insertion order
(keys are unique in a real dict; where a statement needs that fact it carries
a Nodup hypothesis on the keys). Python floats are modelled as exact
rationals; Python round(x, 2) is modelled as exact decimal rounding with
ties to even, which is what round performs on an exactly representable tie.
-/

namespace BenchReport

/-- A group timing dict of one group: stage name to accumulated duration in
nanoseconds. Corresponds to the dict stored in all_groups_data. -/
abbrev Stages := List (String × ℚ)

/-- The mapping from group name to its stage dict, as returned by
collect_raw_data. -/
abbrev AllGroupsData := List (String × Stages)

/-- sum(stages.values()) -/
def groupTotal (stages : Stages) : ℚ := (stages.map Prod.snd).sum

/-- stages.get(s, d): the value of key s, or the default d when absent. -/
def stageGet (stages : Stages) (s : String) (d : ℚ) : ℚ :=
  match stages.lookup s with
  | some v => v
  | none => d

/-- all_stage_names = sorted(list(set(stage for stages in all_data.values()
for stage in stages.keys()))): the deduplicated union of the stage keys of
every group, sorted ascending (Python sorts strings lexicographically, as
does the order on String used here). -/
def allStageNames (allData : AllGroupsData) : List String :=
  List.insertionSort (· ≤ ·) ((allData.flatMap (fun g => g.2.map Prod.fst)).dedup)

/-- Round a rational to the nearest integer with ties going to the even
neighbour, the behaviour of Python round on an exact tie. -/
def roundHalfEven (q : ℚ) : ℤ :=
  if q - ⌊q⌋ = 1 / 2 then (if Even ⌊q⌋ then ⌊q⌋ else ⌊q⌋ + 1) else round q

/-- Python round(x, 2): round at the second decimal place. -/
def round2 (q : ℚ) : ℚ := (roundHalfEven (q * 100) : ℚ) / 100

/-- One data row of timings_raw.csv as written by process_and_plot.py line 73:
row = [group_name, round(total_time, 2)] + [round(stages.get(s, 0), 2) for s
in all_stage_names]. The group name, then the total cell, then the stage
cells. -/
def rawRowPP (stageNames : List String) (groupName : String) (stages : Stages) :
    String × ℚ × List ℚ :=
  (groupName, round2 (groupTotal stages),
    stageNames.map (fun s => round2 (stageGet stages s 0)))

/-- One data row of timings_raw.csv as written by draw_barplot.py line 74:
row = [group_name, total_time] + [stages.get(s, 0) for s in all_stage_names],
with no rounding. -/
def rawRowDB (stageNames : List String) (groupName : String) (stages : Stages) :
    String × ℚ × List ℚ :=
  (groupName, groupTotal stages, stageNames.map (fun s => stageGet stages s 0))

/-- One step of the inner loop filling stage_percentages:
stage_percentages[stage_name].append(percentage) on a defaultdict(list). -/
def appendPerc (m : String → List ℚ) (s : String) (p : ℚ) : String → List ℚ :=
  fun t => if t = s then m t ++ [p] else m t

/-- The body of the outer loop of the percentage analysis for one group:
total_time = sum(stages.values()); if total_time > 0, append
(stage_time / total_time) * 100 for every item of the stage dict. -/
def addGroupPercs (m : String → List ℚ) (stages : Stages) : String → List ℚ :=
  if 0 < groupTotal stages then
    stages.foldl (fun acc p => appendPerc acc p.1 (p.2 / groupTotal stages * 100)) m
  else m

/-- stage_percentages as built by the double loop in generate_reports
(identical in both scripts): for each stage name, the list of per-group
percentages in group iteration order. -/
def stagePercentages (allData : AllGroupsData) : String → List ℚ :=
  allData.foldl (fun m g => addGroupPercs m g.2) (fun _ => [])

/-- Python min over a non-empty list (the empty case never arises in the
script because of the [0] default; 0 is returned here). -/
def pyMin : List ℚ → ℚ
  | [] => 0
  | x :: xs => xs.foldl min x

/-- Python max over a non-empty list. -/
def pyMax : List ℚ → ℚ
  | [] => 0
  | x :: xs => xs.foldl max x

/-- sum(percentages) / len(percentages). -/
def pyAvg (l : List ℚ) : ℚ := l.sum / l.length

/-- The (min, max, avg) triple written for one stage row of
percentage_summary.csv; percentages = stage_percentages.get(stage_name, [0])
substitutes [0] exactly when the stage never received an entry. -/
def percStats (allData : AllGroupsData) (s : String) : ℚ × ℚ × ℚ :=
  let percentages :=
    if stagePercentages allData s = [] then [0] else stagePercentages allData s
  (pyMin percentages, pyMax percentages, pyAvg percentages)

/-- The rows of percentage_summary.csv, one per stage in all_stage_names
order. -/
def percRows (allData : AllGroupsData) : List (String × ℚ × ℚ × ℚ) :=
  (allStageNames allData).map (fun s => (s, percStats allData s))

/-- The header of timings_raw.csv:
['pair', 'total_time_ns'] + [stage + '_time_ns' for stage in all_stage_names]. -/
def rawHeader (allData : AllGroupsData) : List String :=
  "pair" :: "total_time_ns" :: (allStageNames allData).map (fun s => s ++ "_time_ns")

/-- The stage columns kept by create_percentage_stacked_bar_chart line 114:
among the stage columns (each named stage + _time_ns) keep those ending in
_time_ns (all of them) and different from total_time_ns; hence a stage
actually named total is dropped here and draws no layer. -/
def chartStages (stageNames : List String) : List String :=
  stageNames.filter (fun s => s ++ "_time_ns" != "total_time_ns")

/-- Height of the layer of stage s for one group in the 100 percent stacked
chart: the raw CSV cell (0 when the stage is absent from the group) divided
by the total_time_ns cell of the row, times 100. draw_barplot.py writes the
raw CSV unrounded, so the cells read back are the exact values. -/
def layerHeight (stages : Stages) (s : String) : ℚ :=
  stageGet stages s 0 / groupTotal stages * 100

/-- The chart layers: one bar layer per kept stage column, in column order,
carrying the heights of every group; the loop draws layer i of every group
at the same stacking position i. -/
def chartLayers (stageNames : List String) (groups : List Stages) :
    List (String × List ℚ) :=
  (chartStages stageNames).map (fun s => (s, groups.map (fun g => layerHeight g s)))

/-- The bottom on which layer i of one group rests: the summed heights of the
previous layers in the fixed column order. -/
def layerBottom (stageNames : List String) (stages : Stages) (i : ℕ) : ℚ :=
  (((chartStages stageNames).take i).map (layerHeight stages)).sum

instance : IsTotal (String × ℚ) (fun a b => a.2 ≤ b.2) :=
  ⟨fun a b => le_total a.2 b.2⟩

instance : IsTrans (String × ℚ) (fun a b => a.2 ≤ b.2) :=
  ⟨fun _ _ _ h h' => le_trans h h'⟩

/-- Models df.sort_values(by = total_time_ns, ascending = False) of
draw_barplot.py line 118 on the (group, total) rows. pandas computes an
ascending argsort of the column and reverses it for the descending case; for
the array sizes at hand the underlying numpy sort is the stable insertion
sort, so the model is a stable ascending sort followed by a reversal. -/
def sortGroupsDesc (rows : List (String × ℚ)) : List (String × ℚ) :=
  (List.insertionSort (fun a b => a.2 ≤ b.2) rows).reverse

/-- The fruits_translation dict of draw_barplot.py lines 13 to 18. -/
def fruits_translation : List (String × String) :=
  [("apple2", "Яблоко"), ("lemon", "Лимон"), ("banana", "Банан"),
   ("pear", "Груша")]

/-- Python str.split() with no separator: cut the character list at runs of
whitespace and keep the non-empty words. Group names here use the plain
space as their only whitespace, which is what this models. -/
def splitWordsAux : List Char → List Char → List String
  | [], acc => if acc = [] then [] else [String.mk acc.reverse]
  | c :: cs, acc =>
    if c = ' ' then
      (if acc = [] then splitWordsAux cs []
       else String.mk acc.reverse :: splitWordsAux cs [])
    else splitWordsAux cs (c :: acc)

/-- p.split() on a Python string modelled through its character list. -/
def pySplit (p : String) : List String := splitWordsAux p.data []

/-- sep.join(ws) of Python: the words joined with the separator between
consecutive words. -/
def pyJoin (sep : String) : List String → String
  | [] => ""
  | [w] => w
  | w :: ws => w ++ sep ++ pyJoin sep ws

/-- The pair label rewriting of draw_barplot.py line 111, applied to the
pair column before the index is set: split the group name into words, keep
the words that are keys of fruits_translation, translate them, and join the
translations with a dash: " - ".join(fruits_translation[w] for w in
p.split() if w in fruits_translation). -/
def translatePair (p : String) : String :=
  pyJoin " - " ((pySplit p).filterMap (fun w => fruits_translation.lookup w))

/-- The labelled (pair, total) rows the chart works on, in scan order: one
row per group of the raw CSV, carrying the translated pair label (the df
index after lines 111 and 112) and the total_time_ns cell. -/
def totalsRows (allData : AllGroupsData) : List (String × ℚ) :=
  allData.map (fun g => (translatePair g.1, groupTotal g.2))

/-- The row order of the stacked chart: df_percent is reindexed to the index
of df sorted by descending total (line 118). The reindex is by translated
label, so this gives the on-chart order whenever the translated labels are
pairwise distinct; with duplicate labels pandas fails inside the
try/except of the chart step instead and no chart is produced. -/
def chartRowOrder (allData : AllGroupsData) : List (String × ℚ) :=
  sortGroupsDesc (totalsRows allData)

/-- What reading one measurement leaf yields in collect_raw_data:
either estimates.json was parsed and the mean point_estimate field was
present (some v) or absent (none), or opening or parsing raised and the
except branch runs. -/
inductive LeafResult where
  | estimate (v : Option ℚ)
  | unreadable
deriving DecidableEq

/-- One measurement leaf of a group subtree: a directory named base holding
benchmark.json, whose stage name is the parent directory name. -/
structure Leaf where
  stage : String
  result : LeafResult

/-- stage_totals[parent_dir_name] += point_estimate on a defaultdict(float):
add to the existing key or append a fresh one at the end. -/
def addToStage : Stages → String → ℚ → Stages
  | [], s, v => [(s, v)]
  | (k, w) :: rest, s, v =>
    if k = s then (k, w + v) :: rest else (k, w) :: addToStage rest s v

/-- Processing of one leaf in the scan loop, threading the stage dict and the
count of warnings printed: a parsed leaf with the field accumulates, a parsed
leaf without the field is skipped silently, an unreadable leaf is skipped
with one warning. -/
def scanStep (acc : Stages × ℕ) (leaf : Leaf) : Stages × ℕ :=
  match leaf.result with
  | .estimate (some v) => (addToStage acc.1 leaf.stage v, acc.2)
  | .estimate none => acc
  | .unreadable => (acc.1, acc.2 + 1)

/-- The walk over the leaves of one group directory: fold scanStep from the
empty dict and zero warnings. -/
def collectGroup (leaves : List Leaf) : Stages × ℕ :=
  leaves.foldl scanStep ([], 0)

/-- The input of collect_raw_data, abstracted from the file system: whether
the root directory exists, and for each group subdirectory its list of
measurement leaves in walk order. -/
structure ScanInput where
  rootExists : Bool
  groups : List (String × List Leaf)

/-- The two fatal conditions of the pipeline. -/
inductive ScanError where
  | missingRoot
  | noValidData
deriving DecidableEq

/-- collect_raw_data: fail on a missing root; otherwise keep each group whose
scan produced a non-empty stage dict; fail when no group survives. -/
def collect_raw_data (inp : ScanInput) : Except ScanError AllGroupsData :=
  if inp.rootExists = false then .error .missingRoot
  else
    let d := inp.groups.filterMap (fun g =>
      let st := (collectGroup g.2).1
      if st = [] then none else some (g.1, st))
    if d = [] then .error .noValidData else .ok d

/-- Outcome of main: a fatal diagnostic with no artifacts, or success with
the artifact files written. -/
inductive Outcome where
  | fatal (e : ScanError)
  | success (artifacts : List String)

/-- The artifacts a run produced. -/
def Outcome.artifactList : Outcome → List String
  | .fatal _ => []
  | .success l => l

/-- main of process_and_plot.py: when collect_raw_data returns no data, main
returns right away, before generate_reports and the chart; otherwise the two
CSV files and the pie chart are produced. -/
def runMainPP (inp : ScanInput) : Outcome :=
  match collect_raw_data inp with
  | .error e => .fatal e
  | .ok _ =>
    .success ["timings_raw.csv", "percentage_summary.csv", "summary_pie_chart.pdf"]

/-- Which write steps raise in one run: directory creation, the two CSV
writes, and the chart step. -/
structure WriteEnv where
  makedirsFails : Bool
  rawCsvFails : Bool
  summaryCsvFails : Bool
  chartFails : Bool

/-- Trace of one run over a WriteEnv: which artifacts were attempted in
order, which were written, and whether an uncaught exception escaped. -/
structure RunTrace where
  attempted : List String
  written : List String
  crashed : Bool
deriving DecidableEq

/-- generate_reports under a write environment. The function has no
try/except: makedirs raising aborts before any write, the raw CSV write
raising aborts before the summary CSV write is attempted, and a raising
write leaves the files already written in place. -/
def generateReportsRun (env : WriteEnv) : RunTrace :=
  if env.makedirsFails then ⟨[], [], true⟩
  else if env.rawCsvFails then ⟨["timings_raw.csv"], [], true⟩
  else if env.summaryCsvFails then
    ⟨["timings_raw.csv", "percentage_summary.csv"], ["timings_raw.csv"], true⟩
  else
    ⟨["timings_raw.csv", "percentage_summary.csv"],
     ["timings_raw.csv", "percentage_summary.csv"], false⟩

/-- The draw_barplot.py pipeline after a successful scan: generate_reports,
then create_percentage_stacked_bar_chart, whose whole body sits in a
try/except, so a chart failure is caught and only skips the chart. An
exception escaping generate_reports crashes main before the chart step. -/
def runPipelineDB (env : WriteEnv) : RunTrace :=
  let r := generateReportsRun env
  if r.crashed then r
  else if env.chartFails then
    ⟨r.attempted ++ ["percentage_stacked_bar_chart.pdf"], r.written, false⟩
  else
    ⟨r.attempted ++ ["percentage_stacked_bar_chart.pdf"],
     r.written ++ ["percentage_stacked_bar_chart.pdf"], false⟩

/-- What one group adds to the percentage list of stage s: when its total is
positive, one entry per item of its stage dict whose key is s; nothing
otherwise. -/
def groupPercContribution (stages : Stages) (s : String) : List ℚ :=
  if 0 < groupTotal stages then
    stages.filterMap (fun p =>
      if p.1 = s then some (p.2 / groupTotal stages * 100) else none)
  else []

lemma foldl_appendPerc (l : List (String × ℚ)) (f : String × ℚ → ℚ)
    (m : String → List ℚ) (s : String) :
    (l.foldl (fun acc p => appendPerc acc p.1 (f p)) m) s =
      m s ++ l.filterMap (fun p => if p.1 = s then some (f p) else none) := by
  induction l generalizing m with
  | nil => simp
  | cons p rest ih =>
    rw [List.foldl_cons, ih, List.filterMap_cons]
    by_cases h : p.1 = s
    · simp [h, appendPerc]
    · simp [h, appendPerc, Ne.symm h]

lemma addGroupPercs_apply (m : String → List ℚ) (stages : Stages) (s : String) :
    addGroupPercs m stages s = m s ++ groupPercContribution stages s := by
  unfold addGroupPercs groupPercContribution
  by_cases h : 0 < groupTotal stages
  · simp only [h, if_true]
    exact foldl_appendPerc stages (fun p => p.2 / groupTotal stages * 100) m s
  · simp [h]

lemma foldl_addGroupPercs (d : AllGroupsData) (m : String → List ℚ) (s : String) :
    (d.foldl (fun acc g => addGroupPercs acc g.2) m) s =
      m s ++ d.flatMap (fun g => groupPercContribution g.2 s) := by
  induction d generalizing m with
  | nil => simp
  | cons g rest ih =>
    rw [List.foldl_cons, ih, List.flatMap_cons, addGroupPercs_apply,
      List.append_assoc]

/-- The percentage list of stage s is the concatenation, in group order, of
what each group contributes. -/
lemma stagePercentages_eq (d : AllGroupsData) (s : String) :
    stagePercentages d s = d.flatMap (fun g => groupPercContribution g.2 s) := by
  unfold stagePercentages
  rw [foldl_addGroupPercs, List.nil_append]

/-- On an association list with no duplicate keys, filtering for the entries
with key s keeps one value exactly when lookup finds the key. -/
lemma filterMap_key_eq_lookup (stages : Stages) (s : String) (f : ℚ → ℚ)
    (h : (stages.map Prod.fst).Nodup) :
    stages.filterMap (fun p => if p.1 = s then some (f p.2) else none) =
      (match stages.lookup s with
       | some v => [f v]
       | none => []) := by
  induction stages with
  | nil => simp
  | cons p rest ih =>
    simp only [List.map_cons, List.nodup_cons] at h
    rw [List.filterMap_cons, List.lookup_cons]
    by_cases hp : p.1 = s
    · subst hp
      have hb : (p.1 == p.1) = true := beq_self_eq_true p.1
      simp only [if_pos rfl, hb]
      have hrest : rest.filterMap (fun q =>
          if q.1 = p.1 then some (f q.2) else none) = [] := by
        rw [List.filterMap_eq_nil_iff]
        intro q hq
        have : q.1 ≠ p.1 := by
          intro he
          exact h.1 (he ▸ List.mem_map_of_mem Prod.fst hq)
        simp [this]
      simp [hrest]
    · have hbeq : (s == p.1) = false := by
        simp [Ne.symm hp]
      simp only [if_neg hp, hbeq, Bool.false_eq_true, if_false]
      exact ih h.2

/-- On a dict with no duplicate keys, the contribution of a group is a
singleton exactly when the group has positive total and holds the stage. -/
lemma groupPercContribution_eq_lookup (stages : Stages) (s : String)
    (h : (stages.map Prod.fst).Nodup) :
    groupPercContribution stages s =
      if 0 < groupTotal stages then
        (match stages.lookup s with
         | some v => [v / groupTotal stages * 100]
         | none => [])
      else [] := by
  unfold groupPercContribution
  by_cases ht : 0 < groupTotal stages
  · simp only [ht, if_true]
    exact filterMap_key_eq_lookup stages s (fun v => v / groupTotal stages * 100) h
  · simp [ht]

/-- C2: for every stage, the percentage distribution used by the summary
statistics holds exactly one entry, 100 times the stage value over the total,
for each group that holds the stage and has positive total, in group order;
a group without the stage adds nothing, while the raw CSV cell and the chart
layer of that group render 0 for the stage. -/
theorem spec_c2 (d : AllGroupsData) (s : String)
    (hnd : ∀ g ∈ d, (g.2.map Prod.fst).Nodup) :
    stagePercentages d s =
      d.flatMap (fun g =>
        if 0 < groupTotal g.2 then
          (match g.2.lookup s with
           | some v => [v / groupTotal g.2 * 100]
           | none => [])
        else []) ∧
    (∀ stages : Stages, stages.lookup s = none →
      stageGet stages s 0 = 0 ∧ layerHeight stages s = 0) := by
  constructor
  · rw [stagePercentages_eq]
    induction d with
    | nil => simp
    | cons g rest ih =>
      rw [List.flatMap_cons, List.flatMap_cons,
        groupPercContribution_eq_lookup g.2 s (hnd g (by simp)),
        ih (fun g' hg' => hnd g' (List.mem_cons_of_mem g hg'))]
  · intro stages hl
    constructor
    · simp [stageGet, hl]
    · simp [layerHeight, stageGet, hl]

/-- Witness for C2 at scenario B of the spec: group a has x and y, group b
has only x; the y list holds the single entry of group a. -/
theorem spec_c2_witness :
    stagePercentages
      [("a", [("x", (100 : ℚ)), ("y", 100)]), ("b", [("x", (300 : ℚ))])] "y"
      = [50] := by
  rw [(spec_c2 [("a", [("x", (100 : ℚ)), ("y", 100)]), ("b", [("x", (300 : ℚ))])]
    "y" (by simp)).1]
  simp [groupTotal, List.lookup]
  norm_num

lemma foldl_min_le_init (xs : List ℚ) (x : ℚ) : xs.foldl min x ≤ x := by
  induction xs generalizing x with
  | nil => exact le_refl x
  | cons y ys ih => exact le_trans (ih (min x y)) (min_le_left x y)

lemma foldl_min_le_mem (xs : List ℚ) (x y : ℚ) (h : y ∈ xs) :
    xs.foldl min x ≤ y := by
  induction xs generalizing x with
  | nil => cases h
  | cons z zs ih =>
    rcases List.mem_cons.mp h with rfl | hy
    · exact le_trans (foldl_min_le_init zs (min x y)) (min_le_right x y)
    · exact ih (min x z) hy

lemma foldl_min_mem (xs : List ℚ) (x : ℚ) : xs.foldl min x ∈ x :: xs := by
  induction xs generalizing x with
  | nil => exact List.mem_singleton.mpr rfl
  | cons y ys ih =>
    rcases List.mem_cons.mp (ih (min x y)) with he | hm
    · rcases min_choice x y with h | h
      · rw [List.foldl_cons, he, h]; exact List.mem_cons_self x _
      · rw [List.foldl_cons, he, h]
        exact List.mem_cons_of_mem x (List.mem_cons_self y _)
    · exact List.mem_cons_of_mem x (List.mem_cons_of_mem y hm)

lemma pyMin_le_mem (l : List ℚ) (q : ℚ) (h : q ∈ l) : pyMin l ≤ q := by
  cases l with
  | nil => cases h
  | cons x xs =>
    rcases List.mem_cons.mp h with rfl | hq
    · exact foldl_min_le_init xs q
    · exact foldl_min_le_mem xs x q hq

lemma pyMin_mem (l : List ℚ) (h : l ≠ []) : pyMin l ∈ l := by
  cases l with
  | nil => exact absurd rfl h
  | cons x xs => exact foldl_min_mem xs x

lemma le_foldl_max_init (xs : List ℚ) (x : ℚ) : x ≤ xs.foldl max x := by
  induction xs generalizing x with
  | nil => exact le_refl x
  | cons y ys ih => exact le_trans (le_max_left x y) (ih (max x y))

lemma le_foldl_max_mem (xs : List ℚ) (x y : ℚ) (h : y ∈ xs) :
    y ≤ xs.foldl max x := by
  induction xs generalizing x with
  | nil => cases h
  | cons z zs ih =>
    rcases List.mem_cons.mp h with rfl | hy
    · exact le_trans (le_max_right x y) (le_foldl_max_init zs (max x y))
    · exact ih (max x z) hy

lemma foldl_max_mem (xs : List ℚ) (x : ℚ) : xs.foldl max x ∈ x :: xs := by
  induction xs generalizing x with
  | nil => exact List.mem_singleton.mpr rfl
  | cons y ys ih =>
    rcases List.mem_cons.mp (ih (max x y)) with he | hm
    · rcases max_choice x y with h | h
      · rw [List.foldl_cons, he, h]; exact List.mem_cons_self x _
      · rw [List.foldl_cons, he, h]
        exact List.mem_cons_of_mem x (List.mem_cons_self y _)
    · exact List.mem_cons_of_mem x (List.mem_cons_of_mem y hm)

lemma mem_le_pyMax (l : List ℚ) (q : ℚ) (h : q ∈ l) : q ≤ pyMax l := by
  cases l with
  | nil => cases h
  | cons x xs =>
    rcases List.mem_cons.mp h with rfl | hq
    · exact le_foldl_max_init xs q
    · exact le_foldl_max_mem xs x q hq

lemma pyMax_mem (l : List ℚ) (h : l ≠ []) : pyMax l ∈ l := by
  cases l with
  | nil => exact absurd rfl h
  | cons x xs => exact foldl_max_mem xs x

/-- A key of an entry of an association list is found by lookup. -/
lemma lookup_ne_none_of_mem (st : Stages) (p : String × ℚ) (hp : p ∈ st) :
    st.lookup p.1 ≠ none := by
  induction st with
  | nil => cases hp
  | cons q rest ih =>
    rw [List.lookup_cons]
    rcases List.mem_cons.mp hp with rfl | hq
    · simp
    · by_cases hqs : p.1 == q.1
      · simp [hqs]
      · simp only [hqs, Bool.false_eq_true, if_false]
        exact ih hq

/-- C10: a stage present in a group with value exactly 0 (and group total
positive) contributes the entry 0 to the percentage list of the stage, so it
is counted by min, max and avg; a stage absent from a group contributes
nothing through that group. -/
theorem spec_c10 (d : AllGroupsData) (gname : String) (stages : Stages)
    (s : String) (hg : (gname, stages) ∈ d)
    (htot : 0 < groupTotal stages) (hv : (s, (0 : ℚ)) ∈ stages) :
    (0 : ℚ) ∈ stagePercentages d s ∧
    (percStats d s).1 ≤ 0 ∧ 0 ≤ (percStats d s).2.1 ∧
    (∀ st : Stages, st.lookup s = none → groupPercContribution st s = []) := by
  have hmem : (0 : ℚ) ∈ stagePercentages d s := by
    rw [stagePercentages_eq]
    apply List.mem_flatMap.mpr
    refine ⟨(gname, stages), hg, ?_⟩
    unfold groupPercContribution
    rw [if_pos htot]
    apply List.mem_filterMap.mpr
    exact ⟨(s, 0), hv, by simp⟩
  have hne : stagePercentages d s ≠ [] := List.ne_nil_of_mem hmem
  refine ⟨hmem, ?_, ?_, ?_⟩
  · simp only [percStats, if_neg hne]
    exact pyMin_le_mem _ 0 hmem
  · simp only [percStats, if_neg hne]
    exact mem_le_pyMax _ 0 hmem
  · intro st hl
    unfold groupPercContribution
    by_cases ht : 0 < groupTotal st
    · rw [if_pos ht, List.filterMap_eq_nil_iff]
      intro p hp
      have : p.1 ≠ s := fun he =>
        lookup_ne_none_of_mem st p hp (he ▸ hl)
      simp [this]
    · exact if_neg ht

/-- Witness for C10: group g has stage x with value 0 and stage y with value
4; the x list receives the entry 0. -/
theorem spec_c10_witness :
    (0 : ℚ) ∈ stagePercentages [("g", [("x", (0 : ℚ)), ("y", 4)])] "x" :=
  (spec_c10 [("g", [("x", (0 : ℚ)), ("y", 4)])] "g" [("x", (0 : ℚ)), ("y", 4)]
    "x" (by simp) (by norm_num [groupTotal]) (by simp)).1

/-- Rounding at the second decimal place is the identity exactly on the
rationals with at most two decimals. -/
lemma round2_of_den_dvd (q : ℚ) (n : ℤ) (hq : q * 100 = (n : ℚ)) :
    round2 q = q := by
  unfold round2 roundHalfEven
  rw [hq, Int.floor_intCast]
  rw [if_neg (by norm_num : ¬((n : ℚ) - (n : ℤ) = 1 / 2))]
  rw [round_intCast]
  rw [← hq]
  exact mul_div_cancel_right₀ q (by norm_num)

/-- Counterexample to C1 as stated: for the single group g with one stage x
of duration 0.125 ns, process_and_plot.py writes round(0.125, 2) = 0.12 in
the total_time_ns column, which is not the exact sum 0.125 of the stage
values. -/
theorem spec_c1_counterexample :
    (rawRowPP ["x"] "g" [("x", (1 : ℚ) / 8)]).2.1 ≠
      groupTotal [("x", (1 : ℚ) / 8)] := by
  have h1 : groupTotal [("x", (1 : ℚ) / 8)] = 1 / 8 := by
    simp [groupTotal]
  have h2 : round2 ((1 : ℚ) / 8) = 3 / 25 := by
    unfold round2 roundHalfEven
    have hc : (1 : ℚ) / 8 * 100 = 25 / 2 := by norm_num
    have hf : ⌊(25 : ℚ) / 2⌋ = 12 := by norm_num
    rw [hc, hf]
    rw [if_pos (by norm_num : (25 : ℚ) / 2 - ((12 : ℤ) : ℚ) = 1 / 2)]
    rw [if_pos (by decide : Even (12 : ℤ))]
    norm_num
  show round2 (groupTotal [("x", (1 : ℚ) / 8)]) ≠ groupTotal [("x", (1 : ℚ) / 8)]
  rw [h1, h2]
  norm_num

/-- C1 amended: the draw_barplot.py raw CSV writes the exact sum of the
stage values in the total_time_ns column; the process_and_plot.py raw CSV
writes that exact sum rounded at the second decimal place, which equals the
exact sum exactly when the sum has at most two decimals (100 times it is an
integer). -/
theorem spec_c1_amended (stageNames : List String) (groupName : String)
    (stages : Stages) (q : ℚ) (n : ℤ) (hq : q * 100 = (n : ℚ)) :
    (rawRowDB stageNames groupName stages).2.1 = groupTotal stages ∧
    (rawRowPP stageNames groupName stages).2.1 = round2 (groupTotal stages) ∧
    round2 q = q :=
  ⟨rfl, rfl, round2_of_den_dvd q n hq⟩

/-- Witness for the amended C1 at a one-stage group of duration 0.25 ns. -/
theorem spec_c1_amended_witness :
    (rawRowDB ["x"] "g" [("x", (1 : ℚ) / 4)]).2.1 =
      groupTotal [("x", (1 : ℚ) / 4)] ∧
    (rawRowPP ["x"] "g" [("x", (1 : ℚ) / 4)]).2.1 =
      round2 (groupTotal [("x", (1 : ℚ) / 4)]) ∧
    round2 ((1 : ℚ) / 4) = (1 : ℚ) / 4 :=
  spec_c1_amended ["x"] "g" [("x", (1 : ℚ) / 4)] ((1 : ℚ) / 4) 25 (by norm_num)

lemma le_pyAvg (l : List ℚ) (a : ℚ) (hne : l ≠ []) (h : ∀ q ∈ l, a ≤ q) :
    a ≤ pyAvg l := by
  have hlen : (0 : ℚ) < l.length := by
    have : l.length ≠ 0 := fun h0 => hne (List.eq_nil_of_length_eq_zero h0)
    exact_mod_cast Nat.pos_of_ne_zero this
  rw [pyAvg, le_div_iff₀ hlen]
  have := List.card_nsmul_le_sum l a h
  rw [nsmul_eq_mul] at this
  linarith [this]

lemma pyAvg_le (l : List ℚ) (b : ℚ) (hne : l ≠ []) (h : ∀ q ∈ l, q ≤ b) :
    pyAvg l ≤ b := by
  have hlen : (0 : ℚ) < l.length := by
    have : l.length ≠ 0 := fun h0 => hne (List.eq_nil_of_length_eq_zero h0)
    exact_mod_cast Nat.pos_of_ne_zero this
  rw [pyAvg, div_le_iff₀ hlen]
  have := List.sum_le_card_nsmul l b h
  rw [nsmul_eq_mul] at this
  linarith [this]

/-- Every entry of a percentage list lies between 0 and 100 when all stage
values are non-negative. -/
lemma stagePercentages_mem_bounds (d : AllGroupsData) (s : String)
    (hnn : ∀ g ∈ d, ∀ p ∈ g.2, 0 ≤ p.2) (q : ℚ)
    (hq : q ∈ stagePercentages d s) : 0 ≤ q ∧ q ≤ 100 := by
  rw [stagePercentages_eq] at hq
  obtain ⟨g, hg, hmem⟩ := List.mem_flatMap.mp hq
  unfold groupPercContribution at hmem
  by_cases ht : 0 < groupTotal g.2
  · rw [if_pos ht] at hmem
    obtain ⟨p, hp, heq⟩ := List.mem_filterMap.mp hmem
    by_cases hps : p.1 = s
    · rw [if_pos hps, Option.some_inj] at heq
      subst heq
      have hp0 : 0 ≤ p.2 := hnn g hg p hp
      have hple : p.2 ≤ groupTotal g.2 := by
        apply List.single_le_sum (fun x hx => ?_) p.2
          (List.mem_map_of_mem Prod.snd hp)
        obtain ⟨r, hr, rfl⟩ := List.mem_map.mp hx
        exact hnn g hg r hr
      constructor
      · positivity
      · have h1 : p.2 / groupTotal g.2 ≤ 1 := (div_le_one ht).mpr hple
        calc p.2 / groupTotal g.2 * 100 ≤ 1 * 100 :=
              mul_le_mul_of_nonneg_right h1 (by norm_num)
          _ = 100 := by norm_num
    · rw [if_neg hps] at heq
      cases heq
  · rw [if_neg ht] at hmem
    cases hmem

/-- C3: assuming non-negative stage values, every percentage entry lies in
the interval from 0 to 100; the per-stage statistics satisfy
0 ≤ min ≤ avg ≤ max ≤ 100; and a stage whose percentage list is empty gets
the triple (0, 0, 0). percStats packs the triple as (min, max, avg). -/
theorem spec_c3 (d : AllGroupsData) (s : String)
    (hnn : ∀ g ∈ d, ∀ p ∈ g.2, 0 ≤ p.2) :
    (∀ q ∈ stagePercentages d s, 0 ≤ q ∧ q ≤ 100) ∧
    0 ≤ (percStats d s).1 ∧
    (percStats d s).1 ≤ (percStats d s).2.2 ∧
    (percStats d s).2.2 ≤ (percStats d s).2.1 ∧
    (percStats d s).2.1 ≤ 100 ∧
    (stagePercentages d s = [] → percStats d s = (0, 0, 0)) := by
  have hb : ∀ q ∈ stagePercentages d s, 0 ≤ q ∧ q ≤ 100 :=
    fun q hq => stagePercentages_mem_bounds d s hnn q hq
  by_cases hne : stagePercentages d s = []
  · refine ⟨hb, ?_, ?_, ?_, ?_, fun _ => ?_⟩ <;>
      simp [percStats, hne, pyMin, pyMax, pyAvg]
  · have hstats : percStats d s =
        (pyMin (stagePercentages d s), pyMax (stagePercentages d s),
         pyAvg (stagePercentages d s)) := by
      simp [percStats, hne]
    refine ⟨hb, ?_, ?_, ?_, ?_, fun he => absurd he hne⟩
    · rw [hstats]
      exact (hb _ (pyMin_mem _ hne)).1
    · rw [hstats]
      exact le_pyAvg _ _ hne (fun q hq => pyMin_le_mem _ q hq)
    · rw [hstats]
      exact pyAvg_le _ _ hne (fun q hq => mem_le_pyMax _ q hq)
    · rw [hstats]
      exact (hb _ (pyMax_mem _ hne)).2

/-- Witness for C3 at scenario A of the spec: one group with stages x of 100
and y of 300. -/
theorem spec_c3_witness :
    0 ≤ (percStats [("a", [("x", (100 : ℚ)), ("y", 300)])] "x").1 ∧
    (percStats [("a", [("x", (100 : ℚ)), ("y", 300)])] "x").2.1 ≤ 100 := by
  have h := spec_c3 [("a", [("x", (100 : ℚ)), ("y", 300)])] "x"
    (by intro g hg p hp; simp at hg; rw [hg] at hp; simp at hp;
        rcases hp with h | h <;> rw [h] <;> norm_num)
  exact ⟨h.2.1, h.2.2.2.2.1⟩

lemma mem_allStageNames (d : AllGroupsData) (s : String) :
    s ∈ allStageNames d ↔ ∃ g ∈ d, s ∈ g.2.map Prod.fst := by
  unfold allStageNames
  rw [(List.perm_insertionSort _ _).mem_iff, List.mem_dedup, List.mem_flatMap]

lemma nodup_allStageNames (d : AllGroupsData) : (allStageNames d).Nodup :=
  ((List.perm_insertionSort _ _).nodup_iff).mpr (List.nodup_dedup _)

lemma sorted_allStageNames (d : AllGroupsData) :
    (allStageNames d).Sorted (· ≤ ·) :=
  List.sorted_insertionSort _ _

lemma stageGet_cons (k : String) (v : ℚ) (rest : Stages) (s : String) (d : ℚ) :
    stageGet ((k, v) :: rest) s d = if s = k then v else stageGet rest s d := by
  unfold stageGet
  by_cases h : s = k
  · subst h
    simp [List.lookup_cons]
  · have hb : (s == k) = false := beq_eq_false_iff_ne.mpr h
    simp [List.lookup_cons, hb, h]

lemma stageGet_of_not_mem (stages : Stages) (s : String) (d : ℚ)
    (h : s ∉ stages.map Prod.fst) : stageGet stages s d = d := by
  induction stages with
  | nil => rfl
  | cons p rest ih =>
    obtain ⟨k, v⟩ := p
    rw [List.map_cons, List.mem_cons] at h
    push_neg at h
    rw [stageGet_cons, if_neg h.1]
    exact ih h.2

lemma sum_map_ite (S : List String) (k : String) (v : ℚ) (g : String → ℚ)
    (hS : S.Nodup) (hk : k ∈ S) :
    (S.map (fun s => if s = k then v else g s)).sum
      = v + ((S.map g).sum - g k) := by
  induction S with
  | nil => cases hk
  | cons a rest ih =>
    rw [List.nodup_cons] at hS
    rcases List.mem_cons.mp hk with rfl | hk'
    · have hrest : ∀ s ∈ rest, (if s = k then v else g s) = g s := by
        intro s hs
        have : s ≠ k := fun he => hS.1 (he ▸ hs)
        simp [this]
      rw [List.map_cons, List.sum_cons, if_pos rfl, List.map_congr_left hrest,
        List.map_cons, List.sum_cons]
      ring
    · have hak : a ≠ k := fun he => hS.1 (he ▸ hk')
      rw [List.map_cons, List.sum_cons, if_neg hak, ih hS.2 hk',
        List.map_cons, List.sum_cons]
      ring

/-- Summing the zero-filled cell of every column of a duplicate-free column
list that covers the keys of a dict reproduces the dict total. -/
lemma sum_stageGet (stages : Stages) (S : List String)
    (hS : S.Nodup) (hkeys : (stages.map Prod.fst).Nodup)
    (hsub : ∀ p ∈ stages, p.1 ∈ S) :
    (S.map (fun s => stageGet stages s 0)).sum = groupTotal stages := by
  induction stages with
  | nil =>
    have h0 : ∀ s ∈ S, stageGet [] s 0 = 0 := fun s _ => rfl
    rw [List.map_congr_left h0]
    simp [groupTotal]
  | cons p rest ih =>
    obtain ⟨k, v⟩ := p
    rw [List.map_cons, List.nodup_cons] at hkeys
    have hkS : k ∈ S := hsub (k, v) (List.mem_cons_self _ _)
    have hrest : ∀ p ∈ rest, p.1 ∈ S :=
      fun p hp => hsub p (List.mem_cons_of_mem _ hp)
    have hcongr : ∀ s ∈ S, stageGet ((k, v) :: rest) s 0
        = if s = k then v else stageGet rest s 0 :=
      fun s _ => stageGet_cons k v rest s 0
    rw [List.map_congr_left hcongr, sum_map_ite S k v _ hS hkS,
      stageGet_of_not_mem rest k 0 hkeys.1, ih hkeys.2 hrest]
    simp [groupTotal]

lemma append_time_ns_inj (s : String) (h : s ++ "_time_ns" = "total_time_ns") :
    s = "total" := by
  have hd := congrArg String.data h
  rw [String.data_append] at hd
  have hd' : s.data ++ "_time_ns".data = "total".data ++ "_time_ns".data := by
    rw [hd]
    decide
  have := List.append_cancel_right hd'
  cases s
  cases this
  rfl

/-- When no stage is named total, the chart keeps every stage column. -/
lemma chartStages_of_no_total (S : List String) (h : "total" ∉ S) :
    chartStages S = S := by
  unfold chartStages
  apply List.filter_eq_self.mpr
  intro s hs
  rw [bne_iff_ne]
  intro he
  exact h (append_time_ns_inj s he ▸ hs)

/-- Counterexample to C4 as stated: one group g whose only stage is named
total, with value 50. The group total is positive, yet the stage column
collides with the synthetic total_time_ns column, is dropped from the chart,
and the layer heights of the group sum to 0, not 100. -/
theorem spec_c4_counterexample :
    0 < groupTotal [("total", (50 : ℚ))] ∧
    ((chartStages (allStageNames [("g", [("total", (50 : ℚ))])])).map
        (layerHeight [("total", (50 : ℚ))])).sum ≠ 100 := by
  constructor
  · norm_num [groupTotal]
  · have h : chartStages (allStageNames [("g", [("total", (50 : ℚ))])]) = [] := rfl
    rw [h]
    norm_num

/-- C4 amended: for every group with positive total and no duplicate stage
keys, provided no stage anywhere is named total (whose column name would
collide with the synthetic total column and be dropped), the layer heights
of that group over the kept chart columns sum to exactly 100; and the layer
order is the same fixed column order for every group. -/
theorem spec_c4_amended (d : AllGroupsData) (gname : String) (stages : Stages)
    (hg : (gname, stages) ∈ d)
    (hkeys : (stages.map Prod.fst).Nodup)
    (htot : 0 < groupTotal stages)
    (hnt : "total" ∉ allStageNames d) :
    ((chartStages (allStageNames d)).map (layerHeight stages)).sum = 100 ∧
    (∀ groups : List Stages,
      (chartLayers (allStageNames d) groups).map Prod.fst
        = chartStages (allStageNames d)) := by
  constructor
  · rw [chartStages_of_no_total _ hnt]
    have hsub : ∀ p ∈ stages, p.1 ∈ allStageNames d := by
      intro p hp
      rw [mem_allStageNames]
      exact ⟨(gname, stages), hg, List.mem_map_of_mem Prod.fst hp⟩
    have hsum := sum_stageGet stages (allStageNames d)
      (nodup_allStageNames d) hkeys hsub
    unfold layerHeight
    have hcongr : ∀ s ∈ allStageNames d,
        stageGet stages s 0 / groupTotal stages * 100
          = stageGet stages s 0 * (100 / groupTotal stages) := by
      intro s _
      rw [div_mul_eq_mul_div, mul_div_assoc]
    rw [List.map_congr_left hcongr, List.sum_map_mul_right, hsum]
    field_simp
  · intro groups
    unfold chartLayers
    rw [List.map_map]
    exact (List.map_congr_left (fun s _ => rfl)).trans (List.map_id' _)

/-- Witness for the amended C4: one group g with the single stage x. -/
theorem spec_c4_amended_witness :
    ((chartStages (allStageNames [("g", [("x", (100 : ℚ))])])).map
        (layerHeight [("x", (100 : ℚ))])).sum = 100 :=
  (spec_c4_amended [("g", [("x", (100 : ℚ))])] "g" [("x", (100 : ℚ))]
    (by simp) (by simp) (by norm_num [groupTotal]) (by decide)).1

/-- C5: all_stage_names is sorted ascending, duplicate-free, holds exactly
the union of the stage keys of the groups, is invariant under reordering the
groups (so identical across repeated runs over the same scanned data), and
is the column and row order of the raw CSV header, the percentage rows and
the chart layers. -/
theorem spec_c5 (d : AllGroupsData) :
    (allStageNames d).Sorted (· ≤ ·) ∧
    (allStageNames d).Nodup ∧
    (∀ s, s ∈ allStageNames d ↔ ∃ g ∈ d, s ∈ g.2.map Prod.fst) ∧
    (∀ d' : AllGroupsData, d.Perm d' → allStageNames d = allStageNames d') ∧
    rawHeader d = "pair" :: "total_time_ns" ::
      (allStageNames d).map (fun s => s ++ "_time_ns") ∧
    (percRows d).map Prod.fst = allStageNames d ∧
    (∀ groups : List Stages,
      (chartLayers (allStageNames d) groups).map Prod.fst
        = chartStages (allStageNames d)) := by
  refine ⟨sorted_allStageNames d, nodup_allStageNames d,
    fun s => mem_allStageNames d s, ?_, rfl, ?_, ?_⟩
  · intro d' h
    apply List.eq_of_perm_of_sorted ?_ (sorted_allStageNames d)
      (sorted_allStageNames d')
    exact (List.perm_insertionSort _ _).trans
      (((h.flatMap_right _).dedup).trans (List.perm_insertionSort _ _).symm)
  · unfold percRows
    rw [List.map_map]
    exact (List.map_congr_left (fun s _ => rfl)).trans (List.map_id' _)
  · intro groups
    unfold chartLayers
    rw [List.map_map]
    exact (List.map_congr_left (fun s _ => rfl)).trans (List.map_id' _)

/-- Witness for C5: swapping the two groups leaves all_stage_names
unchanged. -/
theorem spec_c5_witness :
    allStageNames [("a", [("x", (1 : ℚ))]), ("b", [("y", (2 : ℚ))])]
      = allStageNames [("b", [("y", (2 : ℚ))]), ("a", [("x", (1 : ℚ))])] :=
  (spec_c5 _).2.2.2.1 _
    (List.Perm.swap ("b", [("y", (2 : ℚ))]) ("a", [("x", (1 : ℚ))]) [])

/-- Warnings accumulate additively and independently of the running stage
dict. -/
lemma collectGroup_shift (leaves : List Leaf) (st : Stages) (w k : ℕ) :
    leaves.foldl scanStep (st, w + k)
      = ((leaves.foldl scanStep (st, w)).1,
         (leaves.foldl scanStep (st, w)).2 + k) := by
  induction leaves generalizing st w with
  | nil => rfl
  | cons leaf rest ih =>
    rw [List.foldl_cons, List.foldl_cons]
    cases hres : leaf.result with
    | estimate v =>
      cases v with
      | some x =>
        simp only [scanStep, hres]
        exact ih (addToStage st leaf.stage x) w
      | none =>
        simp only [scanStep, hres]
        exact ih st w
    | unreadable =>
      simp only [scanStep, hres]
      have hnat : w + k + 1 = (w + 1) + k := by omega
      rw [hnat]
      exact ih st (w + 1)

/-- C6: a leaf whose statistics file is unreadable or malformed, or whose
mean point_estimate field is absent, is skipped: the stage totals are the
ones of the scan without that leaf, the other leaves before and after it
still contribute, and exactly one warning is added for an unreadable leaf
(none for a missing field). -/
theorem spec_c6 (pre post : List Leaf) (b : Leaf)
    (hb : b.result = .unreadable ∨ b.result = .estimate none) :
    (collectGroup (pre ++ b :: post)).1 = (collectGroup (pre ++ post)).1 ∧
    (collectGroup (pre ++ b :: post)).2 =
      (collectGroup (pre ++ post)).2
        + (if b.result = .unreadable then 1 else 0) := by
  unfold collectGroup
  rw [List.foldl_append, List.foldl_append, List.foldl_cons]
  rcases hb with hb | hb
  · have hstep : scanStep (pre.foldl scanStep ([], 0)) b
        = ((pre.foldl scanStep ([], 0)).1,
           (pre.foldl scanStep ([], 0)).2 + 1) := by
      simp only [scanStep, hb]
    rw [hstep, hb,
      collectGroup_shift post (pre.foldl scanStep ([], 0)).1
        (pre.foldl scanStep ([], 0)).2 1]
    exact ⟨rfl, rfl⟩
  · have hstep : scanStep (pre.foldl scanStep ([], 0)) b
        = pre.foldl scanStep ([], 0) := by
      simp only [scanStep, hb]
    rw [hstep, hb]
    simp

/-- Witness for C6: a good leaf, an unreadable leaf, a good leaf. -/
theorem spec_c6_witness :
    (collectGroup ([⟨"x", .estimate (some 5)⟩] ++ ⟨"y", .unreadable⟩ ::
        [⟨"x", .estimate (some 3)⟩])).1
      = (collectGroup ([⟨"x", .estimate (some 5)⟩] ++
          [⟨"x", .estimate (some 3)⟩])).1 ∧
    (collectGroup ([⟨"x", .estimate (some 5)⟩] ++ ⟨"y", .unreadable⟩ ::
        [⟨"x", .estimate (some 3)⟩])).2
      = (collectGroup ([⟨"x", .estimate (some 5)⟩] ++
          [⟨"x", .estimate (some 3)⟩])).2
        + (if (Leaf.mk "y" .unreadable).result = .unreadable then 1 else 0) :=
  spec_c6 [⟨"x", .estimate (some 5)⟩] [⟨"x", .estimate (some 3)⟩]
    ⟨"y", .unreadable⟩ (Or.inl rfl)

/-- C7: on either fatal condition, a missing scan root or an entirely empty
scan result, main returns right after the diagnostic, before
generate_reports and any chart step, and no artifact is produced. -/
theorem spec_c7 (inp : ScanInput)
    (h : inp.rootExists = false ∨ ∀ g ∈ inp.groups, (collectGroup g.2).1 = []) :
    (∃ e, runMainPP inp = .fatal e) ∧ (runMainPP inp).artifactList = [] := by
  have hcol : ∃ e, collect_raw_data inp = .error e := by
    by_cases hr : inp.rootExists = false
    · exact ⟨.missingRoot, by unfold collect_raw_data; rw [if_pos hr]⟩
    · rcases h with h | h
      · exact absurd h hr
      · refine ⟨.noValidData, ?_⟩
        unfold collect_raw_data
        rw [if_neg hr]
        have hnil : inp.groups.filterMap (fun g =>
            let st := (collectGroup g.2).1
            if st = [] then none else some (g.1, st)) = [] := by
          rw [List.filterMap_eq_nil_iff]
          intro g hg
          simp only [h g hg, if_pos]
        simp only [hnil, if_pos]
  obtain ⟨e, he⟩ := hcol
  refine ⟨⟨e, ?_⟩, ?_⟩
  · unfold runMainPP
    rw [he]
  · unfold runMainPP
    rw [he]
    rfl

/-- Witness for C7: a missing root produces a fatal outcome with no
artifacts. -/
theorem spec_c7_witness :
    (∃ e, runMainPP ⟨false, []⟩ = .fatal e) ∧
    (runMainPP ⟨false, []⟩).artifactList = [] :=
  spec_c7 ⟨false, []⟩ (Or.inl rfl)

/-- Counterexample to C8 as stated: when the raw timings write raises, the
exception escapes generate_reports uncaught and the percentage summary write
is never attempted, contradicting the claimed per-artifact isolation of the
two report writes. -/
theorem spec_c8_counterexample :
    (WriteEnv.mk false true false false).rawCsvFails = true ∧
    "percentage_summary.csv" ∉
      (runPipelineDB (WriteEnv.mk false true false false)).attempted := by
  constructor
  · rfl
  · simp [runPipelineDB, generateReportsRun]

/-- C8 amended: the chart step runs after both CSV writes and its failure is
caught inside create_percentage_stacked_bar_chart, so a failing chart never
prevents the CSV reports; but a failing raw timings write propagates out of
generate_reports, so the percentage summary write is not even attempted and
the run crashes. -/
theorem spec_c8_amended (env : WriteEnv) (hmk : env.makedirsFails = false) :
    (env.rawCsvFails = false → env.summaryCsvFails = false →
      "timings_raw.csv" ∈ (runPipelineDB env).written ∧
      "percentage_summary.csv" ∈ (runPipelineDB env).written ∧
      (runPipelineDB env).crashed = false) ∧
    (env.rawCsvFails = true →
      "percentage_summary.csv" ∉ (runPipelineDB env).attempted ∧
      (runPipelineDB env).crashed = true) := by
  obtain ⟨mk, rc, sc, ch⟩ := env
  simp only at hmk
  subst hmk
  cases rc <;> cases sc <;> cases ch <;>
    simp [runPipelineDB, generateReportsRun]

/-- Witness for the amended C8: with only the chart step failing, both CSV
files are written and nothing crashes. -/
theorem spec_c8_amended_witness :
    "timings_raw.csv" ∈ (runPipelineDB ⟨false, false, false, true⟩).written ∧
    "percentage_summary.csv" ∈
      (runPipelineDB ⟨false, false, false, true⟩).written ∧
    (runPipelineDB ⟨false, false, false, true⟩).crashed = false :=
  (spec_c8_amended ⟨false, false, false, true⟩ rfl).1 rfl rfl

/-- Counterexample to C9 as stated: the groups apple2 lemon and then banana
pear, in that scan order, with equal totals. Their translated labels are
distinct, so the chart renders; its row order is the banana pear row first
and the apple2 lemon row second, the reverse of the scan order, because the
sort reverses a stable ascending sort and so reverses ties. -/
theorem spec_c9_counterexample :
    totalsRows [("apple2 lemon", [("x", (1 : ℚ))]),
        ("banana pear", [("x", (1 : ℚ))])]
      = [("Яблоко - Лимон", (1 : ℚ)), ("Банан - Груша", 1)] ∧
    chartRowOrder [("apple2 lemon", [("x", (1 : ℚ))]),
        ("banana pear", [("x", (1 : ℚ))])]
      = [("Банан - Груша", (1 : ℚ)), ("Яблоко - Лимон", 1)] ∧
    ([("Банан - Груша", (1 : ℚ)), ("Яблоко - Лимон", 1)] : List (String × ℚ))
      ≠ [("Яблоко - Лимон", (1 : ℚ)), ("Банан - Груша", 1)] := by
  have h1 : translatePair "apple2 lemon" = "Яблоко - Лимон" := by decide
  have h2 : translatePair "banana pear" = "Банан - Груша" := by decide
  have hg : groupTotal [("x", (1 : ℚ))] = 1 := by
    norm_num [groupTotal]
  refine ⟨?_, ?_, by simp⟩
  · simp [totalsRows, h1, h2, hg]
  · simp [chartRowOrder, totalsRows, sortGroupsDesc, h1, h2, hg,
      List.insertionSort, List.orderedInsert]

/-- C9 amended: the chart row order is a permutation of the scan-order rows
(labelled by their translated pair names, which must be pairwise distinct
for the chart to render at all) sorted by weakly descending total;
equal-total rows are not kept in scan order: the implementation reverses a
stable ascending sort, so a run of equal totals appears in reversed scan
order. -/
theorem spec_c9_amended (d : AllGroupsData) :
    (chartRowOrder d).Perm (totalsRows d) ∧
    (chartRowOrder d).Sorted (fun a b => b.2 ≤ a.2) := by
  constructor
  · exact (List.reverse_perm _).trans (List.perm_insertionSort _ _)
  · unfold chartRowOrder sortGroupsDesc
    rw [List.Sorted, List.pairwise_reverse]
    exact List.sorted_insertionSort _ _

end BenchReport
